import Mathlib

/-!
A shallow embedding of the LC-3 virtual machine in src/lc3.c.

Machine words are unsigned 16-bit values, modelled as `Nat` with an explicit
`% 65536` wherever the C code converts a wider intermediate back to
`uint16_t`.  The register file and the memory are modelled as total tables
`Nat → Nat`; indices 0..7 are the general registers, 8 is `R_PC` and 9 is
`R_COND`, mirroring the register enumeration of the C source.  The host
terminal is modelled by a list of pending input bytes and a list of output
bytes.
-/

namespace LC3

/-- Pointwise update of a table, the C array assignment `f[i] = v`. -/
def upd (f : Nat → Nat) (i v : Nat) : Nat → Nat :=
  fun j => if j = i then v else f j

/-- The all-zero table: freshly zero-initialised C global arrays. -/
def zero_table : Nat → Nat := fun _ => 0

/-- Keyboard status register address (`MR_KBSR` in src/lc3.c). -/
def MR_KBSR : Nat := 0xFE00

/-- Keyboard data register address (`MR_KBDR` in src/lc3.c). -/
def MR_KBDR : Nat := 0xFE02

/-- `sign_extend` from src/lc3.c (lines 110-115): if bit `bit_count - 1` of
`x` is set, OR in `0xFFFF << bit_count`; the result is stored back into a
`uint16_t`, hence the `% 65536`. -/
def sign_extend (x : Nat) (bit_count : Nat) : Nat :=
  if (x >>> (bit_count - 1)) &&& 1 = 1 then (x ||| (0xFFFF <<< bit_count)) % 65536
  else x

/-- `swap16` from src/lc3.c (line 118): exchange the two bytes of a word;
the `int` intermediate is converted back to `uint16_t` on return. -/
def swap16 (x : Nat) : Nat := ((x <<< 8) ||| (x >>> 8)) % 65536

/-- `update_flags` from src/lc3.c (lines 121-130), as a function of the
register file: sets register 9 (`R_COND`) to `FL_ZRO = 2`, `FL_NEG = 4` or
`FL_POS = 1` according to the value of register `r`. -/
def update_flags (reg : Nat → Nat) (r : Nat) : Nat → Nat :=
  if reg r = 0 then upd reg 9 2
  else if reg r >>> 15 ≠ 0 then upd reg 9 4
  else upd reg 9 1

/-- `check_key` from src/lc3.c: a zero-timeout poll of stdin, true exactly
when at least one input byte is pending. -/
def check_key (input : List Nat) : Bool := !input.isEmpty

/-- `mem_read` from src/lc3.c (lines 161-171).  The state it touches is the
memory table and the pending-input list, so it maps those plus an address to
the value read together with the two updated components.  Reading `MR_KBSR`
polls the terminal: if a byte is pending it is consumed into `memory[MR_KBDR]`
(as the raw `int` result of `getchar`, no `char` conversion is involved here)
and `memory[MR_KBSR]` becomes `0x8000`; otherwise `memory[MR_KBSR]` becomes 0.
The function returns `memory[addr]` read from the updated table. -/
def mem_read (memory : Nat → Nat) (input : List Nat) (addr : Nat) :
    Nat × (Nat → Nat) × List Nat :=
  if addr = MR_KBSR then
    if check_key input then
      let memory := upd (upd memory MR_KBSR 0x8000) MR_KBDR (input.headD 0)
      (memory addr, memory, input.tail)
    else
      let memory := upd memory MR_KBSR 0
      (memory addr, memory, input)
  else (memory addr, memory, input)

/-- `mem_write` from src/lc3.c (line 173): plain store, no device hook. -/
def mem_write (memory : Nat → Nat) (addr val : Nat) : Nat → Nat :=
  upd memory addr val

/-- The value of `(uint16_t)c` after `char c = getchar()` in the GETC and IN
trap handlers (src/lc3.c lines 362-363 and 394-397).  `char` is signed on the
reference target (x86-64 Linux), so a byte `b ≥ 0x80` becomes the negative
`char` `b - 256` and the conversion to `uint16_t` yields `0xFF00 + b`.
An empty input list stands for end-of-file, where `getchar` returns `-1`
and the same chain of conversions yields `0xFFFF`. -/
def getchar_c16 (input : List Nat) : Nat :=
  match input with
  | [] => 0xFFFF
  | b :: _ => if b % 256 < 128 then b % 256 else 65280 + b % 256

/-- The byte `putc` actually emits when handed the `char c` read by the IN
trap: `putc` reduces its argument modulo 256 (end-of-file echoes 0xFF). -/
def getchar_byte8 (input : List Nat) : Nat :=
  match input with
  | [] => 255
  | b :: _ => b % 256

/-- The prompt printed by the IN trap (src/lc3.c line 393), as bytes. -/
def in_prompt : List Nat := "Enter a character: ".data.map Char.toNat

/-- Bytes emitted by the PUTS loop (src/lc3.c lines 379-385): one character
per word, low 8 bits of each word, stopping at the first zero word.  The C
loop is an unguarded pointer walk; `fuel` merely bounds this model of it and
is chosen larger than the array everywhere the model is used. -/
def puts_bytes (memory : Nat → Nat) : Nat → Nat → List Nat
  | 0, _ => []
  | fuel + 1, i =>
    if memory i = 0 then []
    else (memory i &&& 0xFF) :: puts_bytes memory fuel (i + 1)

/-- Bytes emitted by the PUTSP loop (src/lc3.c lines 413-421): per non-zero
word, the low byte then — when non-zero — the high byte. -/
def putsp_bytes (memory : Nat → Nat) : Nat → Nat → List Nat
  | 0, _ => []
  | fuel + 1, i =>
    if memory i = 0 then []
    else
      (memory i &&& 0xFF) ::
        ((if memory i >>> 8 ≠ 0 then [memory i >>> 8] else []) ++
          putsp_bytes memory fuel (i + 1))

/-- The sequence of array indices the PUTS loop dereferences (src/lc3.c
lines 379-384): the pointer starts at `memory + R0` and is incremented
without any 16-bit wrap, so the indices are plain naturals.  `fuel` bounds
this model of the walk; in the C code the walk is unbounded, and an index
`≥ 65536` dereferences past the end of the `memory` array. -/
def puts_trail (memory : Nat → Nat) : Nat → Nat → List Nat
  | 0, _ => []
  | fuel + 1, i => i :: (if memory i = 0 then [] else puts_trail memory fuel (i + 1))

/-- The word sequence the image loader obtains from the byte stream that
follows the origin: `fread` fills each `uint16_t` with two consecutive
stream bytes and `swap16` (on the little-endian reference host) then yields
the big-endian value `b1 * 256 + b2`; the `% 65536` is the `uint16_t` range
of `swap16`.  A trailing odd byte yields no word. -/
def bytes_to_words : List Nat → List Nat
  | b1 :: b2 :: rest => (b1 * 256 + b2) % 65536 :: bytes_to_words rest
  | _ => []

/-- The store loop of `read_image_file`: place the words at consecutive
indices starting at `p`. -/
def load_words : (Nat → Nat) → Nat → List Nat → (Nat → Nat)
  | memory, _, [] => memory
  | memory, p, w :: ws => load_words (upd memory p w) (p + 1) ws

/-- `read_image_file` from src/lc3.c (lines 135-150) on a byte stream.  The
first two bytes form the big-endian origin (read into a `uint16_t` and
`swap16`ped).  `uint16_t max_read = MEMORY_MAX - origin` truncates
`65536 - origin` to 16 bits — hence the `% 65536` — and `fread` then
delivers at most `max_read` complete words, which the swap loop converts in
place.  A stream of fewer than two bytes leaves the origin indeterminate in
the C code and is modelled as loading nothing. -/
def read_image_file (memory : Nat → Nat) (bytes : List Nat) : Nat → Nat :=
  match bytes with
  | b1 :: b2 :: rest =>
    let origin := (b1 * 256 + b2) % 65536
    let max_read := (65536 - origin) % 65536
    load_words memory origin ((bytes_to_words rest).take max_read)
  | _ => memory

/-- The mutable state of the VM: the two global arrays of src/lc3.c, the
`running` flag of `main`, whether the process has died through `abort` (the
reserved opcodes and unknown trap vectors), and the modelled terminal. -/
structure Machine where
  memory : Nat → Nat
  reg : Nat → Nat
  running : Bool
  aborted : Bool
  input : List Nat
  output : List Nat

/-- `case OP_ADD` (src/lc3.c lines 205-221).  Intermediate C arithmetic is
`int`-wide and is reduced `% 65536` where it is stored into the `uint16_t`
register. -/
def op_add (inst : Nat) (s : Machine) : Machine :=
  let r0 := (inst >>> 9) &&& 0x7
  let r1 := (inst >>> 6) &&& 0x7
  let imm_flag := (inst >>> 5) &&& 0x1
  let reg :=
    if imm_flag = 1 then
      upd s.reg r0 ((s.reg r1 + sign_extend (inst &&& 0x1F) 5) % 65536)
    else
      upd s.reg r0 ((s.reg r1 + s.reg (inst &&& 0x7)) % 65536)
  { s with reg := update_flags reg r0 }

/-- `case OP_AND` (src/lc3.c lines 222-238). -/
def op_and (inst : Nat) (s : Machine) : Machine :=
  let r0 := (inst >>> 9) &&& 0x7
  let r1 := (inst >>> 6) &&& 0x7
  let imm_flag := (inst >>> 5) &&& 0x1
  let reg :=
    if imm_flag = 1 then
      upd s.reg r0 ((s.reg r1 &&& sign_extend (inst &&& 0x1F) 5) % 65536)
    else
      upd s.reg r0 ((s.reg r1 &&& s.reg (inst &&& 0x7)) % 65536)
  { s with reg := update_flags reg r0 }

/-- `case OP_NOT` (src/lc3.c lines 239-247): `~x` on a 16-bit value is
`65535 - x`. -/
def op_not (inst : Nat) (s : Machine) : Machine :=
  let r0 := (inst >>> 9) &&& 0x7
  let r1 := (inst >>> 6) &&& 0x7
  { s with reg := update_flags (upd s.reg r0 (65535 - s.reg r1 % 65536)) r0 }

/-- `case OP_BR` (src/lc3.c lines 248-259). -/
def op_br (inst : Nat) (s : Machine) : Machine :=
  let cond_flag := (inst >>> 9) &&& 0x7
  let pc_offset := sign_extend (inst &&& 0x1FF) 9
  if cond_flag &&& s.reg 9 ≠ 0 then
    { s with reg := upd s.reg 8 ((s.reg 8 + pc_offset) % 65536) }
  else s

/-- `case OP_JMP` (src/lc3.c lines 260-265). -/
def op_jmp (inst : Nat) (s : Machine) : Machine :=
  { s with reg := upd s.reg 8 (s.reg ((inst >>> 6) &&& 0x7)) }

/-- `case OP_JSR` (src/lc3.c lines 266-279).  In immediate mode the code
computes PCoffset11 into a dead local and never reassigns PC, so only the
link register changes. -/
def op_jsr (inst : Nat) (s : Machine) : Machine :=
  let reg1 := upd s.reg 7 (s.reg 8)
  let imm_flag := (inst >>> 11) &&& 0x1
  if imm_flag = 1 then
    { s with reg := reg1 }
  else
    { s with reg := upd reg1 8 (reg1 ((inst >>> 6) &&& 0x7)) }

/-- `case OP_LD` (src/lc3.c lines 280-291). -/
def op_ld (inst : Nat) (s : Machine) : Machine :=
  let r0 := (inst >>> 9) &&& 0x7
  let fr := mem_read s.memory s.input ((s.reg 8 + sign_extend (inst &&& 0x1FF) 9) % 65536)
  { s with memory := fr.2.1, input := fr.2.2,
           reg := update_flags (upd s.reg r0 fr.1) r0 }

/-- `case OP_LDI` (src/lc3.c lines 292-303): two chained reads, the side
effects of the first feeding the second. -/
def op_ldi (inst : Nat) (s : Machine) : Machine :=
  let r0 := (inst >>> 9) &&& 0x7
  let fr1 := mem_read s.memory s.input ((s.reg 8 + sign_extend (inst &&& 0x1FF) 9) % 65536)
  let fr2 := mem_read fr1.2.1 fr1.2.2 fr1.1
  { s with memory := fr2.2.1, input := fr2.2.2,
           reg := update_flags (upd s.reg r0 fr2.1) r0 }

/-- `case OP_LDR` (src/lc3.c lines 304-315). -/
def op_ldr (inst : Nat) (s : Machine) : Machine :=
  let r0 := (inst >>> 9) &&& 0x7
  let r1 := (inst >>> 6) &&& 0x7
  let fr := mem_read s.memory s.input ((s.reg r1 + sign_extend (inst &&& 0x3F) 6) % 65536)
  { s with memory := fr.2.1, input := fr.2.2,
           reg := update_flags (upd s.reg r0 fr.1) r0 }

/-- `case OP_LEA` (src/lc3.c lines 316-324): effective address into the
destination, then `update_flags`. -/
def op_lea (inst : Nat) (s : Machine) : Machine :=
  let r0 := (inst >>> 9) &&& 0x7
  { s with reg :=
      update_flags (upd s.reg r0 ((s.reg 8 + sign_extend (inst &&& 0x1FF) 9) % 65536)) r0 }

/-- `case OP_ST` (src/lc3.c lines 325-332). -/
def op_st (inst : Nat) (s : Machine) : Machine :=
  let r0 := (inst >>> 9) &&& 0x7
  { s with memory :=
      mem_write s.memory ((s.reg 8 + sign_extend (inst &&& 0x1FF) 9) % 65536) (s.reg r0) }

/-- `case OP_STI` (src/lc3.c lines 333-342): the pointer is fetched through
`mem_read`, then the store is plain. -/
def op_sti (inst : Nat) (s : Machine) : Machine :=
  let r0 := (inst >>> 9) &&& 0x7
  let fr := mem_read s.memory s.input ((s.reg 8 + sign_extend (inst &&& 0x1FF) 9) % 65536)
  { s with memory := mem_write fr.2.1 fr.1 (s.reg r0), input := fr.2.2 }

/-- `case OP_STR` (src/lc3.c lines 343-353). -/
def op_str (inst : Nat) (s : Machine) : Machine :=
  let r0 := (inst >>> 9) &&& 0x7
  let r1 := (inst >>> 6) &&& 0x7
  { s with memory :=
      mem_write s.memory ((s.reg r1 + sign_extend (inst &&& 0x3F) 6) % 65536) (s.reg r0) }

/-- `case OP_TRAP` (src/lc3.c lines 354-438): the link register receives the
post-fetch PC for every vector, then the trap service runs; an unknown
vector calls `abort()`. -/
def op_trap (inst : Nat) (s : Machine) : Machine :=
  let reg1 := upd s.reg 7 (s.reg 8)
  let t := inst &&& 0xFF
  if t = 0x20 then  -- TRAP_GETC
    { s with reg := update_flags (upd reg1 0 (getchar_c16 s.input)) 0,
             input := s.input.tail }
  else if t = 0x21 then  -- TRAP_OUT
    { s with reg := reg1, output := s.output ++ [reg1 0 % 256] }
  else if t = 0x22 then  -- TRAP_PUTS
    { s with reg := reg1, output := s.output ++ puts_bytes s.memory 131072 (reg1 0) }
  else if t = 0x23 then  -- TRAP_IN
    { s with reg := update_flags (upd reg1 0 (getchar_c16 s.input)) 0,
             input := s.input.tail,
             output := s.output ++ in_prompt ++ [getchar_byte8 s.input] }
  else if t = 0x24 then  -- TRAP_PUTSP
    { s with reg := reg1, output := s.output ++ putsp_bytes s.memory 131072 (reg1 0) }
  else if t = 0x25 then  -- TRAP_HALT
    { s with reg := reg1, output := s.output ++ [72, 65, 76, 84, 10], running := false }
  else
    { s with reg := reg1, running := false, aborted := true }

/-- Execute one decoded instruction: the `switch (op)` of `main`
(src/lc3.c lines 204-445).  `s` is the post-fetch state: `PC` (register 8)
has already been incremented and the fetch's memory-mapped side effects are
already in `s.memory`/`s.input`.  The reserved opcodes `OP_RTI` and
`OP_RES` call `abort()`. -/
def exec (inst : Nat) (s : Machine) : Machine :=
  let op := inst >>> 12
  if op = 1 then op_add inst s
  else if op = 5 then op_and inst s
  else if op = 9 then op_not inst s
  else if op = 0 then op_br inst s
  else if op = 12 then op_jmp inst s
  else if op = 4 then op_jsr inst s
  else if op = 2 then op_ld inst s
  else if op = 10 then op_ldi inst s
  else if op = 6 then op_ldr inst s
  else if op = 14 then op_lea inst s
  else if op = 3 then op_st inst s
  else if op = 11 then op_sti inst s
  else if op = 7 then op_str inst s
  else if op = 15 then op_trap inst s
  else { s with running := false, aborted := true }

/-- One iteration of the `while (running)` loop of `main` (src/lc3.c lines
199-446): fetch `inst = mem_read(reg[R_PC]++)` — the fetch itself may fire
the keyboard hook — then decode and execute.  A stopped machine does not
move. -/
def step (s : Machine) : Machine :=
  if s.running then
    let fr := mem_read s.memory s.input (s.reg 8)
    exec fr.1
      { s with memory := fr.2.1, input := fr.2.2,
               reg := upd s.reg 8 ((s.reg 8 + 1) % 65536) }
  else s

/-- The state of the VM when the execution loop is first entered (src/lc3.c
lines 187-198): `COND = FL_ZRO = 2`, `PC = 0x3000`, the general registers
hold whatever the zero-initialised global array was left with (`gp`, left
abstract because the loaded images only constrain `memory`), no output yet. -/
def initial (memory : Nat → Nat) (gp : Nat → Nat) (input : List Nat) : Machine :=
  { memory := memory
    reg := fun i => if i = 9 then 2 else if i = 8 then 0x3000 else gp i
    running := true
    aborted := false
    input := input
    output := [] }

/-- States the VM can be in: the entry state for some loaded memory, input
and register residue, and anything the execution loop reaches from it. -/
inductive Reachable : Machine → Prop
  | entry : ∀ memory gp input, Reachable (initial memory gp input)
  | next : ∀ s, Reachable s → Reachable (step s)

/-- Either the first value equals the second (the flag register was left
alone) or it is one of the three legal flag values. -/
def flag_ok (a b : Nat) : Prop := a = b ∨ a = 1 ∨ a = 2 ∨ a = 4

/-- A machine about to execute the single instruction `inst` placed at
`0x3000`, with `PC = 0x3000`, the given flag value, all other registers and
memory cells zero, and the given pending input. -/
def at3000 (inst : Nat) (cond : Nat) (input : List Nat) : Machine :=
  { memory := upd zero_table 0x3000 inst
    reg := fun i => if i = 9 then cond else if i = 8 then 0x3000 else 0
    running := true
    aborted := false
    input := input
    output := [] }

theorem upd_self (f : Nat → Nat) (i v : Nat) : upd f i v i = v := by
  simp [upd]

theorem upd_ne (f : Nat → Nat) (i v j : Nat) (h : j ≠ i) : upd f i v j = f j := by
  simp [upd, h]

/-- `update_flags` writes only the flag register. -/
theorem update_flags_ne (reg : Nat → Nat) (r j : Nat) (h : j ≠ 9) :
    update_flags reg r j = reg j := by
  unfold update_flags
  split_ifs <;> simp [upd, h]

/-- Whatever it is fed, `update_flags` leaves one of the three flag values
in the flag register. -/
theorem update_flags_cases (reg : Nat → Nat) (r : Nat) :
    update_flags reg r 9 = 1 ∨ update_flags reg r 9 = 2 ∨ update_flags reg r 9 = 4 := by
  unfold update_flags
  split_ifs <;> simp [upd]

/-- C9: the boundary values of `sign_extend` on 5-bit fields: `0x1F` and
`0x10` have the sign bit set and extend to `0xFFFF` and `0xFFF0`, `0x0F`
does not and is returned unchanged. -/
theorem sign_extend_boundary :
    sign_extend 0x1F 5 = 0xFFFF ∧ sign_extend 0x10 5 = 0xFFF0 ∧
      sign_extend 0x0F 5 = 0x000F := by
  decide

/-- C5: `mem_read` by cases.  Reading `0xFE00` with no pending input stores
0 at `0xFE00` and returns 0; reading it with a pending byte `b` stores `b`
at `0xFE02`, stores `0x8000` at `0xFE00`, consumes the byte and returns
`0x8000`; reading any other address returns the stored word and changes
nothing. -/
theorem mem_read_spec (memory : Nat → Nat) (input : List Nat) (addr : Nat) :
    (addr = 0xFE00 → input = [] →
      mem_read memory input addr = (0, upd memory 0xFE00 0, [])) ∧
    (∀ b rest, addr = 0xFE00 → input = b :: rest →
      mem_read memory input addr =
        (0x8000, upd (upd memory 0xFE00 0x8000) 0xFE02 b, rest)) ∧
    (addr ≠ 0xFE00 → mem_read memory input addr = (memory addr, memory, input)) := by
  refine ⟨?_, ?_, ?_⟩
  · intro ha hi
    subst ha; subst hi
    simp [mem_read, MR_KBSR, MR_KBDR, check_key, upd]
  · intro b rest ha hi
    subst ha; subst hi
    simp [mem_read, MR_KBSR, MR_KBDR, check_key, upd]
  · intro ha
    simp [mem_read, MR_KBSR, ha]

theorem mem_read_spec_w :
    mem_read zero_table [] 0xFE00 = (0, upd zero_table 0xFE00 0, []) :=
  (mem_read_spec zero_table [] 0xFE00).1 rfl rfl

/-- C10: a read of any address other than `0xFE00` — the keyboard data
register `0xFE02` included — returns the stored word, leaves every memory
cell as it was and consumes no input: the poll only fires on `0xFE00`. -/
theorem mem_read_plain (memory : Nat → Nat) (input : List Nat) (addr : Nat)
    (h : addr ≠ 0xFE00) :
    mem_read memory input addr = (memory addr, memory, input) := by
  simp [mem_read, MR_KBSR, h]

theorem mem_read_plain_w :
    mem_read (upd zero_table 0xFE02 0xBEEF) [7] 0xFE02 =
      ((upd zero_table 0xFE02 0xBEEF) 0xFE02, upd zero_table 0xFE02 0xBEEF, [7]) :=
  mem_read_plain (upd zero_table 0xFE02 0xBEEF) [7] 0xFE02 (by decide)

/-- C6: the flag left by `update_flags` for a destination holding a 16-bit
value: `N = 4` exactly when the value is at least `0x8000`, `Z = 2` exactly
when it is zero, and `P = 1` exactly otherwise. -/
theorem update_flags_spec (reg : Nat → Nat) (r : Nat) (h : reg r < 65536) :
    (update_flags reg r 9 = 4 ↔ 0x8000 ≤ reg r) ∧
    (update_flags reg r 9 = 2 ↔ reg r = 0) ∧
    (update_flags reg r 9 = 1 ↔ (reg r ≠ 0 ∧ reg r < 0x8000)) := by
  unfold update_flags
  rw [Nat.shiftRight_eq_div_pow]
  split_ifs with h1 h2 <;> simp [upd, h1] <;> omega

theorem update_flags_spec_w :
    (update_flags (upd zero_table 0 0x9000) 0 9 = 4 ↔ 0x8000 ≤ upd zero_table 0 0x9000 0) ∧
    (update_flags (upd zero_table 0 0x9000) 0 9 = 2 ↔ upd zero_table 0 0x9000 0 = 0) ∧
    (update_flags (upd zero_table 0 0x9000) 0 9 = 1 ↔
      (upd zero_table 0 0x9000 0 ≠ 0 ∧ upd zero_table 0 0x9000 0 < 0x8000)) :=
  update_flags_spec (upd zero_table 0 0x9000) 0 (by decide)

theorem flag_ok_update (reg : Nat → Nat) (r b : Nat) :
    flag_ok (update_flags reg r 9) b := by
  rcases update_flags_cases reg r with h | h | h <;> rw [h] <;> simp [flag_ok]

theorem op_add_cond (inst : Nat) (s : Machine) :
    flag_ok ((op_add inst s).reg 9) (s.reg 9) := flag_ok_update _ _ _

theorem op_and_cond (inst : Nat) (s : Machine) :
    flag_ok ((op_and inst s).reg 9) (s.reg 9) := flag_ok_update _ _ _

theorem op_not_cond (inst : Nat) (s : Machine) :
    flag_ok ((op_not inst s).reg 9) (s.reg 9) := flag_ok_update _ _ _

theorem op_br_cond (inst : Nat) (s : Machine) :
    flag_ok ((op_br inst s).reg 9) (s.reg 9) := by
  unfold op_br
  dsimp only
  split_ifs <;> simp [flag_ok, upd]

theorem op_jmp_cond (inst : Nat) (s : Machine) :
    flag_ok ((op_jmp inst s).reg 9) (s.reg 9) := by
  simp [op_jmp, flag_ok, upd]

theorem op_jsr_cond (inst : Nat) (s : Machine) :
    flag_ok ((op_jsr inst s).reg 9) (s.reg 9) := by
  unfold op_jsr
  dsimp only
  split_ifs <;> simp [flag_ok, upd]

theorem op_ld_cond (inst : Nat) (s : Machine) :
    flag_ok ((op_ld inst s).reg 9) (s.reg 9) := flag_ok_update _ _ _

theorem op_ldi_cond (inst : Nat) (s : Machine) :
    flag_ok ((op_ldi inst s).reg 9) (s.reg 9) := flag_ok_update _ _ _

theorem op_ldr_cond (inst : Nat) (s : Machine) :
    flag_ok ((op_ldr inst s).reg 9) (s.reg 9) := flag_ok_update _ _ _

theorem op_lea_cond (inst : Nat) (s : Machine) :
    flag_ok ((op_lea inst s).reg 9) (s.reg 9) := flag_ok_update _ _ _

theorem op_st_cond (inst : Nat) (s : Machine) :
    flag_ok ((op_st inst s).reg 9) (s.reg 9) := Or.inl rfl

theorem op_sti_cond (inst : Nat) (s : Machine) :
    flag_ok ((op_sti inst s).reg 9) (s.reg 9) := Or.inl rfl

theorem op_str_cond (inst : Nat) (s : Machine) :
    flag_ok ((op_str inst s).reg 9) (s.reg 9) := Or.inl rfl

theorem op_trap_cond (inst : Nat) (s : Machine) :
    flag_ok ((op_trap inst s).reg 9) (s.reg 9) := by
  unfold op_trap
  dsimp only
  split_ifs <;>
    first
      | exact flag_ok_update _ _ _
      | simp [flag_ok, upd]

/-- Every branch of the instruction dispatch either leaves the flag register
alone or runs it through `update_flags`. -/
theorem exec_cond_cases (inst : Nat) (s : Machine) :
    flag_ok ((exec inst s).reg 9) (s.reg 9) := by
  by_cases h1 : inst >>> 12 = 1
  · simp only [exec, h1, reduceIte]; exact op_add_cond _ _
  by_cases h2 : inst >>> 12 = 5
  · simp only [exec, h1, h2, reduceIte]; exact op_and_cond _ _
  by_cases h3 : inst >>> 12 = 9
  · simp only [exec, h1, h2, h3, reduceIte]; exact op_not_cond _ _
  by_cases h4 : inst >>> 12 = 0
  · simp only [exec, h1, h2, h3, h4, reduceIte]; exact op_br_cond _ _
  by_cases h5 : inst >>> 12 = 12
  · simp only [exec, h1, h2, h3, h4, h5, reduceIte]; exact op_jmp_cond _ _
  by_cases h6 : inst >>> 12 = 4
  · simp only [exec, h1, h2, h3, h4, h5, h6, reduceIte]; exact op_jsr_cond _ _
  by_cases h7 : inst >>> 12 = 2
  · simp only [exec, h1, h2, h3, h4, h5, h6, h7, reduceIte]; exact op_ld_cond _ _
  by_cases h8 : inst >>> 12 = 10
  · simp only [exec, h1, h2, h3, h4, h5, h6, h7, h8, reduceIte]; exact op_ldi_cond _ _
  by_cases h9 : inst >>> 12 = 6
  · simp only [exec, h1, h2, h3, h4, h5, h6, h7, h8, h9, reduceIte]; exact op_ldr_cond _ _
  by_cases h10 : inst >>> 12 = 14
  · simp only [exec, h1, h2, h3, h4, h5, h6, h7, h8, h9, h10, reduceIte]
    exact op_lea_cond _ _
  by_cases h11 : inst >>> 12 = 3
  · simp only [exec, h1, h2, h3, h4, h5, h6, h7, h8, h9, h10, h11, reduceIte]
    exact op_st_cond _ _
  by_cases h12 : inst >>> 12 = 11
  · simp only [exec, h1, h2, h3, h4, h5, h6, h7, h8, h9, h10, h11, h12, reduceIte]
    exact op_sti_cond _ _
  by_cases h13 : inst >>> 12 = 7
  · simp only [exec, h1, h2, h3, h4, h5, h6, h7, h8, h9, h10, h11, h12, h13, reduceIte]
    exact op_str_cond _ _
  by_cases h14 : inst >>> 12 = 15
  · simp only [exec, h1, h2, h3, h4, h5, h6, h7, h8, h9, h10, h11, h12, h13, h14, reduceIte]
    exact op_trap_cond _ _
  simp only [exec, h1, h2, h3, h4, h5, h6, h7, h8, h9, h10, h11, h12, h13, h14, reduceIte]
  exact Or.inl rfl

/-- One loop iteration either preserves the flag register or leaves one of
the three legal flag values in it. -/
theorem step_cond_cases (s : Machine) : flag_ok ((step s).reg 9) (s.reg 9) := by
  unfold step
  dsimp only
  split_ifs with h
  · have h1 := exec_cond_cases
      (mem_read s.memory s.input (s.reg 8)).1
      { s with memory := (mem_read s.memory s.input (s.reg 8)).2.1,
               input := (mem_read s.memory s.input (s.reg 8)).2.2,
               reg := upd s.reg 8 ((s.reg 8 + 1) % 65536) }
    rcases h1 with h1 | h1
    · left
      rw [h1]
      exact upd_ne s.reg 8 ((s.reg 8 + 1) % 65536) 9 (by decide)
    · right; exact h1
  · left; rfl

/-- C4: the flag register holds `FL_ZRO = 2` when the execution loop is
entered, every step of the loop preserves membership of the flag register
in `{1, 2, 4}`, and hence every reachable state satisfies it. -/
theorem cond_invariant :
    (∀ memory gp input, (initial memory gp input).reg 9 = 2) ∧
    (∀ s : Machine,
      (s.reg 9 = 1 ∨ s.reg 9 = 2 ∨ s.reg 9 = 4) →
      ((step s).reg 9 = 1 ∨ (step s).reg 9 = 2 ∨ (step s).reg 9 = 4)) ∧
    (∀ s, Reachable s → s.reg 9 = 1 ∨ s.reg 9 = 2 ∨ s.reg 9 = 4) := by
  have hinit : ∀ memory gp input, (initial memory gp input).reg 9 = 2 := by
    intro memory gp input
    simp [initial]
  have hstep : ∀ s : Machine,
      (s.reg 9 = 1 ∨ s.reg 9 = 2 ∨ s.reg 9 = 4) →
      ((step s).reg 9 = 1 ∨ (step s).reg 9 = 2 ∨ (step s).reg 9 = 4) := by
    intro s hs
    have h := step_cond_cases s
    unfold flag_ok at h
    rcases h with h | h
    · rw [h]; exact hs
    · exact h
  refine ⟨hinit, hstep, ?_⟩
  intro s hs
  induction hs with
  | entry memory gp input => rw [hinit]; right; left; rfl
  | next s hs ih => exact hstep s ih

theorem cond_invariant_w :
    ((initial zero_table zero_table []).reg 9 = 1 ∨
     (initial zero_table zero_table []).reg 9 = 2 ∨
     (initial zero_table zero_table []).reg 9 = 4) ∧
    ((step (at3000 0x1021 2 [])).reg 9 = 1 ∨
     (step (at3000 0x1021 2 [])).reg 9 = 2 ∨
     (step (at3000 0x1021 2 [])).reg 9 = 4) :=
  ⟨cond_invariant.2.2 (initial zero_table zero_table [])
      (Reachable.entry zero_table zero_table []),
   cond_invariant.2.1 (at3000 0x1021 2 []) (Or.inr (Or.inl rfl))⟩

/-- C1: executing `JSR` with `imm_flag` set (here `0x4801`, PCoffset11 = 1,
fetched from `0x3000`) sets the link register R7 to the post-fetch PC
`0x3001`, but leaves PC at `0x3001` instead of the `0x3002` the claim
requires: the `case OP_JSR` code computes the offset into a dead local and
never reassigns PC. -/
theorem jsr_immediate_discards_offset :
    (step (at3000 0x4801 2 [])).reg 7 = 0x3001 ∧
    (step (at3000 0x4801 2 [])).reg 8 = 0x3001 ∧
    (step (at3000 0x4801 2 [])).reg 8 ≠ 0x3002 := by
  decide

/-- C2 counterexample: executing `LEA R0, #5` (`0xE005` fetched from
`0x3000`) in a state whose flag register holds `N = 4` loads
`R0 = 0x3006` and rewrites the flag register to `P = 1`: `case OP_LEA`
calls `update_flags`, so COND is not left unchanged. -/
theorem lea_changes_cond :
    (at3000 0xE005 4 []).reg 9 = 4 ∧
    (step (at3000 0xE005 4 [])).reg 9 = 1 ∧
    (step (at3000 0xE005 4 [])).reg 0 = 0x3006 := by
  decide

/-- C2 as amended: for every instruction with opcode `0xE`, the destination
register receives `(PC + sext(inst[8:0], 9)) mod 2^16` — PC being the
post-increment value held in register 8 — and the flag register is updated
from that new value. -/
theorem lea_spec (s : Machine) (inst : Nat) (h : inst >>> 12 = 14) :
    (exec inst s).reg ((inst >>> 9) &&& 7) =
      (s.reg 8 + sign_extend (inst &&& 0x1FF) 9) % 65536 ∧
    (exec inst s).reg 9 =
      (if (s.reg 8 + sign_extend (inst &&& 0x1FF) 9) % 65536 = 0 then 2
       else if ((s.reg 8 + sign_extend (inst &&& 0x1FF) 9) % 65536) >>> 15 ≠ 0 then 4
       else 1) := by
  have h7 : (inst >>> 9) &&& 7 ≤ 7 := Nat.and_le_right
  have h9 : (inst >>> 9) &&& 7 ≠ 9 := by omega
  simp only [exec, h, Nat.reduceEqDiff, reduceIte]
  unfold op_lea update_flags
  dsimp only
  rw [upd_self]
  constructor
  · split_ifs <;> rw [upd_ne _ _ _ _ h9, upd_self]
  · split_ifs <;> rw [upd_self]

theorem lea_spec_w :
    (exec 0xE005 (at3000 0xE005 4 [])).reg ((0xE005 >>> 9) &&& 7) =
      ((at3000 0xE005 4 []).reg 8 + sign_extend (0xE005 &&& 0x1FF) 9) % 65536 ∧
    (exec 0xE005 (at3000 0xE005 4 [])).reg 9 =
      (if ((at3000 0xE005 4 []).reg 8 + sign_extend (0xE005 &&& 0x1FF) 9) % 65536 = 0 then 2
       else if (((at3000 0xE005 4 []).reg 8 + sign_extend (0xE005 &&& 0x1FF) 9) % 65536) >>> 15 ≠ 0
         then 4
       else 1) :=
  lea_spec (at3000 0xE005 4 []) 0xE005 (by decide)

/-- C3: the GETC trap (`0xF020` fetched from `0x3000`) applied to the input
byte `0xFF` leaves `R0 = 0xFFFF`, not the zero-extended `0x00FF` the claim
requires: `getchar`'s result passes through a signed `char`, so bytes at
and above `0x80` are sign-extended into the high byte of R0.  The flag
update does run on the new R0 (here `N = 4`). -/
theorem getc_sign_extends :
    (step (at3000 0xF020 2 [0xFF])).reg 0 = 0xFFFF ∧
    (step (at3000 0xF020 2 [0xFF])).reg 0 ≠ 0x00FF ∧
    (step (at3000 0xF020 2 [0xFF])).reg 9 = 4 := by
  decide

/-- C8: with `R0 = 0xFFFF` and `memory[0xFFFF] = 1` (no zero terminator
left in the array), the PUTS loop dereferences index `0xFFFF` and then,
the word being non-zero, index `0x10000 = 2^16` — past the end of the
65536-word memory array, with no wrap-around. -/
theorem puts_walks_out_of_range :
    puts_trail (upd zero_table 0xFFFF 1) 2 0xFFFF = [0xFFFF, 0x10000] := by
  decide

/-- C7 counterexample: the stream `00 00 AB CD` has origin 0 followed by
the word `0xABCD`, which the claim would load at `memory[0]`; the loader
computes `uint16_t max_read = 65536 - 0 = 0` and loads nothing, so
`memory[0]` keeps its old value 0. -/
theorem read_image_origin_zero :
    read_image_file zero_table [0x00, 0x00, 0xAB, 0xCD] 0x0000 = 0 ∧
    read_image_file zero_table [0x00, 0x00, 0xAB, 0xCD] 0x0000 ≠ 0xABCD := by
  decide

/-- Pointwise description of the store loop: cell `addr` receives the word
at offset `addr - p` when `addr` lies in the written window, and is
untouched otherwise. -/
theorem load_words_getD (ws : List Nat) (memory : Nat → Nat) (p addr : Nat) :
    load_words memory p ws addr =
      if p ≤ addr ∧ addr < p + ws.length then ws.getD (addr - p) 0 else memory addr := by
  induction ws generalizing memory p with
  | nil =>
    rw [load_words, if_neg]
    simp only [List.length_nil]
    omega
  | cons w ws ih =>
    rw [load_words, ih]
    simp only [List.length_cons]
    by_cases h1 : p + 1 ≤ addr ∧ addr < p + 1 + ws.length
    · rw [if_pos h1, if_pos (by omega)]
      have hsub : addr - p = (addr - (p + 1)) + 1 := by omega
      rw [hsub, List.getD_cons_succ]
    · rw [if_neg h1]
      by_cases h2 : addr = p
      · subst h2
        rw [upd_self, if_pos (by omega), Nat.sub_self, List.getD_cons_zero]
      · rw [upd_ne _ _ _ _ h2, if_neg (by omega)]

/-- C7 as amended: the loader takes the first two bytes as the big-endian
origin `O`; when `O ≠ 0` it places the following big-endian words at
`memory[O], memory[O+1], …`, stopping at end-of-stream or when the write
index would pass `0xFFFF`; when `O = 0` the 16-bit capacity `2^16 - O`
truncates to 0 and nothing is loaded; every other cell is unchanged, and a
truncated final word is discarded (`bytes_to_words` drops a trailing odd
byte). -/
theorem read_image_spec (memory : Nat → Nat) (b1 b2 : Nat) (rest : List Nat) (addr : Nat)
    (hb1 : b1 < 256) (hb2 : b2 < 256) :
    read_image_file memory (b1 :: b2 :: rest) addr =
      if b1 * 256 + b2 ≠ 0 ∧ b1 * 256 + b2 ≤ addr ∧
          addr < b1 * 256 + b2 +
            min (65536 - (b1 * 256 + b2)) (bytes_to_words rest).length then
        (bytes_to_words rest).getD (addr - (b1 * 256 + b2)) 0
      else memory addr := by
  have ho : b1 * 256 + b2 < 65536 := by omega
  rw [read_image_file]
  rw [Nat.mod_eq_of_lt ho]
  by_cases h0 : b1 * 256 + b2 = 0
  · rw [h0]
    simp [load_words]
  · rw [Nat.mod_eq_of_lt (by omega), load_words_getD, List.length_take]
    by_cases hin : b1 * 256 + b2 ≤ addr ∧
        addr < b1 * 256 + b2 + min (65536 - (b1 * 256 + b2)) (bytes_to_words rest).length
    · rw [if_pos hin, if_pos ⟨h0, hin.1, hin.2⟩,
        List.getD_eq_getElem?_getD, List.getD_eq_getElem?_getD,
        List.getElem?_take, if_pos (by omega)]
    · rw [if_neg hin, if_neg (by tauto)]

theorem read_image_spec_w :
    read_image_file zero_table [0x30, 0x00, 0xAB, 0xCD] 0x3000 =
      (if (0x30 : Nat) * 256 + 0x00 ≠ 0 ∧ 0x30 * 256 + 0x00 ≤ 0x3000 ∧
          0x3000 < 0x30 * 256 + 0x00 +
            min (65536 - (0x30 * 256 + 0x00)) (bytes_to_words [0xAB, 0xCD]).length then
        (bytes_to_words [0xAB, 0xCD]).getD (0x3000 - (0x30 * 256 + 0x00)) 0
      else zero_table 0x3000) :=
  read_image_spec zero_table 0x30 0x00 [0xAB, 0xCD] 0x3000 (by decide) (by decide)

end LC3
